import Mathlib

/-
Shallow embedding of GoAppSettings (pkg/appsettings/load.go).

Modelling conventions:
- Go float64 values are modelled by GoFloat: a finite value is carried as the
  exact rational parsed from its decimal text (no IEEE rounding is observable
  at the granularity of the pipeline, which only moves values between text
  and the overlay), plus infinity and NaN, which strconv.ParseFloat produces
  for the spellings inf and infinity and nan and which encoding/json cannot
  serialize.
- Go strings are Lean Strings; strings.ToLower is modelled on ASCII (the
  keys involved in the configuration pipeline are ASCII).
- map[string]interface values are modelled as association lists with unique
  keys (setKey replaces in place or appends). Go map iteration order is
  unspecified, but json.Marshal sorts map keys, and the embedding sorts keys
  before projection, so list order never leaks into results.
- File contents are modelled post-lexing: a file is absent, unreadable, or
  holds bytes that are either malformed JSON or a well-formed document with
  a given top-level value (JValue). json.Unmarshal into a map succeeds
  exactly on top-level objects and on the literal null (a no-op).
-/

/-- A Go float64 as produced by strconv.ParseFloat: finite values are kept as
exact rationals of their decimal source text; inf carries the sign. -/
inductive GoFloat where
  | finite (q : ℚ)
  | inf (neg : Bool)
  | nan
deriving DecidableEq

/-- A dynamic value as stored in map[string]interface: the types produced by
parseValue (bool, int, float64, string) and by json.Unmarshal of file bytes
(string, float64 numbers, bool, null, arrays, nested objects). -/
inductive JValue where
  | bool (b : Bool)
  | int (n : Int)
  | float (f : GoFloat)
  | str (s : String)
  | null
  | arr (xs : List JValue)
  | obj (fields : List (String × JValue))

/-- ASCII lower-casing of one character (model of Go case folding). -/
def lowerChar (c : Char) : Char :=
  if 'A' ≤ c ∧ c ≤ 'Z' then Char.ofNat (c.toNat + 32) else c

/-- Model of strings.ToLower restricted to ASCII. -/
def goToLower (s : String) : String :=
  String.mk (s.toList.map lowerChar)

/-- Numeric value of a digit list, most significant first. -/
def natOfDigits (cs : List Char) : Nat :=
  cs.foldl (fun a c => a * 10 + (c.toNat - 48)) 0

/-- Splits an optional single leading sign off a character list; returns
whether the sign was minus, and the remainder. -/
def splitSign (cs : List Char) : Bool × List Char :=
  match cs with
  | '+' :: rest => (false, rest)
  | '-' :: rest => (true, rest)
  | _ => (false, cs)

/-- Model of strconv.ParseBool: exactly the twelve accepted literals. -/
def parseBool (s : String) : Option Bool :=
  if s = "1" ∨ s = "t" ∨ s = "T" ∨ s = "TRUE" ∨ s = "true" ∨ s = "True" then
    some true
  else if s = "0" ∨ s = "f" ∨ s = "F" ∨ s = "FALSE" ∨ s = "false" ∨ s = "False" then
    some false
  else
    none

/-- Model of strconv.Atoi: optional sign, then one or more decimal digits and
nothing else; out-of-range values for a 64-bit int are an error (Go then
falls through to the float parse). -/
def atoi (s : String) : Option Int :=
  let (neg, cs) := splitSign s.toList
  if cs.isEmpty ∨ ¬ cs.all Char.isDigit then none
  else
    let v : Int := if neg then -(natOfDigits cs : Int) else (natOfDigits cs : Int)
    if -(2 ^ 63) ≤ v ∧ v ≤ 2 ^ 63 - 1 then some v else none

/-- The special spellings strconv.ParseFloat maps to non-finite values: inf
and infinity with an optional sign, and nan without one, case-insensitive. -/
def specialFloat (s : String) : Option GoFloat :=
  let l := goToLower s
  if l = "inf" ∨ l = "infinity" ∨ l = "+inf" ∨ l = "+infinity" then some (.inf false)
  else if l = "-inf" ∨ l = "-infinity" then some (.inf true)
  else if l = "nan" then some .nan
  else none

/-- Decimal float grammar of strconv.ParseFloat: optional sign, digits with an
optional fractional part (at least one digit overall), optional exponent with
at least one digit. Hexadecimal floats, digit-group underscores and the
overflow-to-range-error path are not modelled (no claim depends on them). -/
def decParse (s : String) : Option ℚ :=
  let (neg, cs) := splitSign s.toList
  let ip := cs.takeWhile Char.isDigit
  let r1 := cs.dropWhile Char.isDigit
  let (fp, r2) :=
    match r1 with
    | '.' :: r => (r.takeWhile Char.isDigit, r.dropWhile Char.isDigit)
    | _ => ([], r1)
  if ip.isEmpty ∧ fp.isEmpty then none
  else
    let mag : ℚ := (natOfDigits (ip ++ fp) : ℚ) / (10 : ℚ) ^ fp.length
    let base : ℚ := if neg then -mag else mag
    match r2 with
    | [] => some base
    | e :: r3 =>
      if e = 'e' ∨ e = 'E' then
        let (eneg, r4) := splitSign r3
        let ed := r4.takeWhile Char.isDigit
        let r5 := r4.dropWhile Char.isDigit
        if ed.isEmpty ∨ ¬ r5.isEmpty then none
        else
          let ex : ℤ := if eneg then -(natOfDigits ed : Int) else (natOfDigits ed : Int)
          some (base * (10 : ℚ) ^ ex)
      else none

/-- Model of strconv.ParseFloat(s, 64): special non-finite spellings first,
otherwise the decimal grammar. -/
def parseFloat (s : String) : Option GoFloat :=
  match specialFloat s with
  | some f => some f
  | none => (decParse s).map .finite

/-- parseValue from load.go: try bool, then int, then float, else keep the
string. -/
def parseValue (value : String) : JValue :=
  match parseBool value with
  | some b => .bool b
  | none =>
    match atoi value with
    | some n => .int n
    | none =>
      match parseFloat value with
      | some f => .float f
      | none => .str value

/-- The untyped accumulating overlay (Go map[string]interface), modelled as an
association list with unique keys. -/
def Overlay : Type := List (String × JValue)

/-- Map write configMap[key] = value: replace in place, or append a new key. -/
def setKey : Overlay → String → JValue → Overlay
  | [], k, v => [(k, v)]
  | (k1, v1) :: rest, k, v =>
    if k1 = k then (k, v) :: rest else (k1, v1) :: setKey rest k v

/-- Map read configMap[key]. -/
def lookupKey : Overlay → String → Option JValue
  | [], _ => none
  | (k1, v1) :: rest, k => if k1 = k then some v1 else lookupKey rest k

/-- The key set of an overlay. -/
def keysOf (m : Overlay) : List String := m.map Prod.fst

/-- The merge loop of loadConfigFile: write every field of the decoded file
object over the accumulated overlay. -/
def mergeFields : List (String × JValue) → Overlay → Overlay
  | [], m => m
  | (k, v) :: rest, m => mergeFields rest (setKey m k v)

/-- File bytes, modelled post-lexing: malformed, or a well-formed JSON
document with the given top-level value. -/
inductive JSONText where
  | malformed
  | wf (v : JValue)

/-- What the file system holds at a path: no file, an unreadable entry (for
example a directory), or readable bytes. -/
inductive FileContent where
  | absent
  | readError
  | bytes (t : JSONText)

/-- A file system, as far as os.ReadFile is concerned. -/
def FS : Type := String → FileContent

/-- Model of json.Unmarshal(data, m) for m a map[string]interface: succeeds
on a well-formed top-level object (yielding its fields) and on the literal
null (a no-op that leaves the map untouched); fails on malformed bytes and on
any other top-level value. -/
def unmarshalObj : JSONText → Except String (List (String × JValue))
  | .malformed => .error "invalid character"
  | .wf (.obj fields) => .ok fields
  | .wf .null => .ok []
  | .wf _ => .error "json: cannot unmarshal value into Go value of type map"

/-- loadConfigFile from load.go: a missing file is silently ignored, a read
error or undecodable bytes abort, a decoded object is merged key by key. -/
def loadConfigFile (fs : FS) (filePath : String) (configMap : Overlay) :
    Except String Overlay :=
  match fs filePath with
  | .absent => .ok configMap
  | .readError => .error "read error"
  | .bytes t =>
    match unmarshalObj t with
    | .error e => .error e
    | .ok fields => .ok (mergeFields fields configMap)

/-- Splits a character list at the first occurrence of the separator; none if
the separator does not occur (model of strings.SplitN(s, sep, 2) yielding
fewer than two parts). -/
def splitEqList : List Char → Option (List Char × List Char)
  | [] => none
  | c :: rest =>
    if c = '=' then some ([], rest)
    else (splitEqList rest).map (fun p => (c :: p.1, p.2))

/-- Model of strings.SplitN(s, sep=eq, 2): the part before the first equals
sign and everything after it, or none when the string has no equals sign. -/
def splitEq (s : String) : Option (String × String) :=
  (splitEqList s.toList).map (fun p => (String.mk p.1, String.mk p.2))

/-- The loop body of loadEnvVars: entries without a separator are skipped;
otherwise the lower-cased name maps to the inferred value. -/
def applyEnvList : List String → Overlay → Overlay
  | [], m => m
  | e :: rest, m =>
    match splitEq e with
    | none => applyEnvList rest m
    | some (k, v) => applyEnvList rest (setKey m (goToLower k) (parseValue v))

/-- loadEnvVars from load.go: nil list is a no-op; the function has no error
path (the error channel is kept for interface symmetry). -/
def loadEnvVars (withEnvVars : Option (List String)) (m : Overlay) :
    Except String Overlay :=
  match withEnvVars with
  | none => .ok m
  | some l => .ok (applyEnvList l m)

/-- True when the token begins with the two-character flag marker (model of
strings.HasPrefix(arg, dash-dash)). -/
def hasFlagPfx (s : String) : Bool :=
  match s.toList with
  | '-' :: '-' :: _ => true
  | _ => false

/-- Removes one leading flag marker when present (model of
strings.TrimPrefix(arg, dash-dash)). -/
def stripFlagPfx (s : String) : String :=
  match s.toList with
  | '-' :: '-' :: rest => String.mk rest
  | _ => s

/-- The indexed loop of loadArgs: every position is visited; a flag token
looks one token ahead, consuming a non-flag neighbour as its value and
otherwise storing boolean true; the loop index always advances by one, so a
consumed value token is still visited (and skipped) at its own position. -/
def applyArgsList : List String → Overlay → Overlay
  | [], m => m
  | a :: rest, m =>
    if hasFlagPfx a then
      let key := goToLower (stripFlagPfx a)
      match rest with
      | [] => setKey m key (.bool true)
      | b :: _ =>
        if hasFlagPfx b then applyArgsList rest (setKey m key (.bool true))
        else applyArgsList rest (setKey m key (parseValue b))
    else applyArgsList rest m

/-- loadArgs from load.go: nil list is a no-op; no error path. -/
def loadArgs (withArgs : Option (List String)) (m : Overlay) :
    Except String Overlay :=
  match withArgs with
  | none => .ok m
  | some l => .ok (applyArgsList l m)

mutual

/-- Whether json.Marshal can serialize the value: everything in the JValue
universe except the non-finite floats (Go would also reject channels and
functions, which have no counterpart in this universe). -/
def serializable : JValue → Bool
  | .float (.inf _) => false
  | .float .nan => false
  | .arr xs => serializableList xs
  | .obj fields => serializableFields fields
  | _ => true

/-- Serializability of every element of a JSON array. -/
def serializableList : List JValue → Bool
  | [] => true
  | x :: xs => serializable x && serializableList xs

/-- Serializability of every value of a JSON object. -/
def serializableFields : List (String × JValue) → Bool
  | [] => true
  | (_, v) :: rest => serializable v && serializableFields rest

end

/-- Whether json.Marshal succeeds on the whole overlay. -/
def marshalOk (m : Overlay) : Bool := serializableFields m

/-- Byte-lexicographic string order (Go string comparison; identical to
codepoint order on the characters for valid UTF-8). -/
def charListLe : List Char → List Char → Bool
  | [], _ => true
  | _ :: _, [] => false
  | a :: as, b :: bs => if a < b then true else if b < a then false else charListLe as bs

/-- Key order used by json.Marshal, which emits map keys sorted. -/
def keyLe (a b : String) : Bool := charListLe a.toList b.toList

/-- Insertion into a key-sorted association list. -/
def insertSorted (kv : String × JValue) : Overlay → Overlay
  | [] => [kv]
  | x :: xs => if keyLe kv.1 x.1 then kv :: x :: xs else x :: insertSorted kv xs

/-- The overlay in the key order json.Marshal emits it in. -/
def sortByKey (m : Overlay) : Overlay := m.foldr insertSorted []

/-- ASCII case-insensitive equality of a document key and a field tag
(encoding/json matches an incoming key to a struct field by exact tag match,
falling back to case-insensitive match; with tags that are pairwise distinct
even case-insensitively, a key feeds a field exactly when they are equal up
to case). -/
def lowerEq (a b : String) : Bool := goToLower a = goToLower b

/-- The values, in marshal key order, that the decoder assigns to the field
with the given tag. -/
def matchesFor (m : Overlay) (tag : String) : List JValue :=
  (sortByKey m).filterMap (fun kv => if lowerEq kv.1 tag then some kv.2 else none)

/-- Decoding a document value into a string field; null leaves the zero
value in place without error. -/
def decodeString : JValue → Except String String
  | .str s => .ok s
  | .null => .ok ""
  | _ => .error "json: cannot unmarshal value into field of type string"

/-- Decoding a document value into an int field: int values directly, float
values only when their decimal rendering has no fractional part (Go re-reads
the emitted numeral with ParseInt). -/
def decodeInt : JValue → Except String Int
  | .int n => .ok n
  | .float (.finite q) => if q.den = 1 then .ok q.num else .error "json: cannot unmarshal number into field of type int"
  | .null => .ok 0
  | _ => .error "json: cannot unmarshal value into field of type int"

/-- Decoding a document value into a bool field. -/
def decodeBool : JValue → Except String Bool
  | .bool b => .ok b
  | .null => .ok false
  | _ => .error "json: cannot unmarshal value into field of type bool"

/-- Decoding a document value into a float64 field: any numeral decodes. -/
def decodeFloat : JValue → Except String ℚ
  | .int n => .ok (n : ℚ)
  | .float (.finite q) => .ok q
  | .null => .ok 0
  | _ => .error "json: cannot unmarshal value into field of type float64"

/-- Sequential assignment of all matching document values to one field: each
is decoded in key order, any failure is an error, the last assignment wins,
and a field with no matching key keeps its zero value. -/
def decodeSeq (dec : JValue → Except String A) (dflt : A) :
    List JValue → Except String A
  | [] => .ok dflt
  | [v] => dec v
  | v :: rest =>
    match dec v with
    | .error e => .error e
    | .ok _ => decodeSeq dec dflt rest

/-- The schema type the loader is instantiated at: the repository's own test
schema (field tags databaseURL, port, debugMode, timeout, name). -/
structure TestConfig where
  databaseURL : String
  port : Int
  debugMode : Bool
  timeout : ℚ
  name : String
deriving DecidableEq

/-- unmarshalToType from load.go at T = TestConfig: marshal the overlay
(failing on unserializable values), then decode the document into the struct
field by field. -/
def unmarshalToType (m : Overlay) : Except String TestConfig :=
  if marshalOk m then do
    let d ← decodeSeq decodeString "" (matchesFor m "databaseURL")
    let p ← decodeSeq decodeInt 0 (matchesFor m "port")
    let b ← decodeSeq decodeBool false (matchesFor m "debugMode")
    let t ← decodeSeq decodeFloat 0 (matchesFor m "timeout")
    let n ← decodeSeq decodeString "" (matchesFor m "name")
    .ok ⟨d, p, b, t, n⟩
  else .error "json: unsupported value"

/-- The loader configuration (AppSettings struct from load.go). -/
structure AppSettings where
  withArgs : Option (List String)
  withEnvVars : Option (List String)
  withEnvironment : Option String
  withConfigDirectory : Option String

/-- getConfigDirectory from load.go: the override verbatim when set (no
existence check), else the executable directory; the latter is an input of
the model (result of os.Executable), since it is environment-dependent. -/
def getConfigDirectory (a : AppSettings) (wd : Except String String) :
    Except String String :=
  match a.withConfigDirectory with
  | some d => .ok d
  | none => wd

/-- Model of filepath.Join for a clean directory and a file name (path
cleaning of degenerate inputs is not modelled; every claim uses clean
absolute directories). -/
def pathJoin (dir file : String) : String := dir ++ "/" ++ file

/-- Load from load.go: resolve the directory, merge the base file, the
optional environment file, the environment variables and the arguments into
one overlay, then project it into the schema type; every stage error aborts
with stage context. -/
def Load (a : AppSettings) (fs : FS) (wd : Except String String) :
    Except String TestConfig :=
  match getConfigDirectory a wd with
  | .error e => .error ("failed to get config directory: " ++ e)
  | .ok configDir =>
    match loadConfigFile fs (pathJoin configDir "config.json") [] with
    | .error e => .error ("failed to load base config: " ++ e)
    | .ok m1 =>
      match (match a.withEnvironment with
             | none => Except.ok m1
             | some env =>
               loadConfigFile fs (pathJoin configDir ("config." ++ env ++ ".json")) m1) with
      | .error e => .error ("failed to load env config: " ++ e)
      | .ok m2 =>
        match loadEnvVars a.withEnvVars m2 with
        | .error e => .error ("failed to load env vars: " ++ e)
        | .ok m3 =>
          match loadArgs a.withArgs m3 with
          | .error e => .error ("failed to load args: " ++ e)
          | .ok m4 =>
            match unmarshalToType m4 with
            | .error e => .error ("failed to unmarshal config: " ++ e)
            | .ok result => .ok result


/-- True exactly when the load result is the error outcome. -/
def isErr {α : Type} : Except String α → Bool
  | .error _ => true
  | .ok _ => false

/-- A well-formed environment entry whose value is not one of ParseFloat's
non-finite spellings (entries without a separator are vacuously fine, since
they are skipped). -/
def entryValueOk (e : String) : Bool :=
  match splitEq e with
  | none => true
  | some p => (specialFloat p.2).isNone

/-- All entries of an environment-variable list have a harmless value. -/
def envValuesOk : List String → Bool
  | [] => true
  | e :: tl => entryValueOk e && envValuesOk tl

/-- A token that is either a flag token (never fed to Value Inference as a
value) or not one of ParseFloat's non-finite spellings. -/
def argTokenOk (t : String) : Bool := hasFlagPfx t || (specialFloat t).isNone

/-- Every token of the argument list that a flag could consume as its value
is not one of ParseFloat's non-finite spellings. -/
def argTokensOk : List String → Bool
  | [] => true
  | t :: tl => argTokenOk t && argTokensOk tl

/-- The file system of the spec's priority scenario: a base file setting
port to 8080 and a dev file setting port to 8090 (JSON numbers decode to
float64). -/
def fsPriority : FS := fun p =>
  if p = "/cfg/config.json" then .bytes (.wf (.obj [("port", .float (.finite 8080))]))
  else if p = "/cfg/config.dev.json" then .bytes (.wf (.obj [("port", .float (.finite 8090))]))
  else .absent

/-- The zero-valued instance of the schema type. -/
def zeroConfig : TestConfig := ⟨"", 0, false, 0, ""⟩

theorem lookupKey_setKey (m : Overlay) (k : String) (v : JValue) :
    lookupKey (setKey m k v) k = some v := by
  induction m with
  | nil => simp [setKey, lookupKey]
  | cons hd tl ih =>
    obtain ⟨k1, v1⟩ := hd
    by_cases hk : k1 = k
    · simp [setKey, hk, lookupKey]
    · simp [setKey, hk, lookupKey, ih]

theorem mem_keysOf_setKey (m : Overlay) (k : String) (v : JValue) (k1 : String)
    (h : k1 ∈ keysOf m) : k1 ∈ keysOf (setKey m k v) := by
  induction m with
  | nil => simp [keysOf] at h
  | cons hd tl ih =>
    obtain ⟨k2, v2⟩ := hd
    rw [show keysOf ((k2, v2) :: tl) = k2 :: keysOf tl from rfl] at h
    by_cases hk : k2 = k
    · rw [show setKey ((k2, v2) :: tl) k v = (k, v) :: tl from by simp [setKey, hk]]
      rw [show keysOf ((k, v) :: tl) = k :: keysOf tl from rfl]
      rcases List.mem_cons.mp h with h1 | h2
      · exact List.mem_cons.mpr (Or.inl (hk ▸ h1))
      · exact List.mem_cons.mpr (Or.inr h2)
    · rw [show setKey ((k2, v2) :: tl) k v = (k2, v2) :: setKey tl k v from by
        simp [setKey, hk]]
      rw [show keysOf ((k2, v2) :: setKey tl k v) = k2 :: keysOf (setKey tl k v) from rfl]
      rcases List.mem_cons.mp h with h1 | h2
      · exact List.mem_cons.mpr (Or.inl h1)
      · exact List.mem_cons.mpr (Or.inr (ih h2))

theorem mem_keysOf_mergeFields (fields : List (String × JValue)) (m : Overlay)
    (k1 : String) (h : k1 ∈ keysOf m) : k1 ∈ keysOf (mergeFields fields m) := by
  induction fields generalizing m with
  | nil => simpa [mergeFields] using h
  | cons hd tl ih =>
    obtain ⟨k, v⟩ := hd
    exact ih (setKey m k v) (mem_keysOf_setKey m k v k1 h)

theorem mem_keysOf_applyEnvList (l : List String) (m : Overlay) (k1 : String)
    (h : k1 ∈ keysOf m) : k1 ∈ keysOf (applyEnvList l m) := by
  induction l generalizing m with
  | nil => simpa [applyEnvList] using h
  | cons e tl ih =>
    cases hsp : splitEq e with
    | none => simpa [applyEnvList, hsp] using ih m h
    | some p =>
      obtain ⟨k, v⟩ := p
      simpa [applyEnvList, hsp] using
        ih (setKey m (goToLower k) (parseValue v))
          (mem_keysOf_setKey m (goToLower k) (parseValue v) k1 h)

theorem mem_keysOf_applyArgsList (l : List String) (m : Overlay) (k1 : String)
    (h : k1 ∈ keysOf m) : k1 ∈ keysOf (applyArgsList l m) := by
  induction l generalizing m with
  | nil => simpa [applyArgsList] using h
  | cons a tl ih =>
    by_cases hfa : hasFlagPfx a
    · cases tl with
      | nil =>
        simpa [applyArgsList, hfa] using
          mem_keysOf_setKey m (goToLower (stripFlagPfx a)) (.bool true) k1 h
      | cons b bs =>
        by_cases hfb : hasFlagPfx b
        · simpa [applyArgsList, hfa, hfb] using
            ih (setKey m (goToLower (stripFlagPfx a)) (.bool true))
              (mem_keysOf_setKey m (goToLower (stripFlagPfx a)) (.bool true) k1 h)
        · simpa [applyArgsList, hfa, hfb] using
            ih (setKey m (goToLower (stripFlagPfx a)) (parseValue b))
              (mem_keysOf_setKey m (goToLower (stripFlagPfx a)) (parseValue b) k1 h)
    · simpa [applyArgsList, hfa] using ih m h

theorem splitEqList_of_no_sep (cs : List Char) (h : '=' ∉ cs) :
    splitEqList cs = none := by
  induction cs with
  | nil => rfl
  | cons c rest ih =>
    have hc : ¬ c = '=' := fun hc => h (hc ▸ List.mem_cons_self c rest)
    have hr : '=' ∉ rest := fun hr => h (List.mem_cons_of_mem c hr)
    simp [splitEqList, hc, ih hr]

theorem splitEqList_append (cs vs : List Char) (h : '=' ∉ cs) :
    splitEqList (cs ++ '=' :: vs) = some (cs, vs) := by
  induction cs with
  | nil => simp [splitEqList]
  | cons c rest ih =>
    have hc : ¬ c = '=' := fun hc => h (hc ▸ List.mem_cons_self c rest)
    have hr : '=' ∉ rest := fun hr => h (List.mem_cons_of_mem c hr)
    simp [splitEqList, hc, ih hr]

theorem toList_append_toList (a b : String) :
    (a ++ b).toList = a.toList ++ b.toList := by
  show (a ++ b).data = a.data ++ b.data
  exact String.data_append a b

theorem mk_toList (s : String) : String.mk s.toList = s := rfl

theorem splitEq_of_no_sep (e : String) (h : '=' ∉ e.toList) : splitEq e = none := by
  unfold splitEq
  rw [splitEqList_of_no_sep e.toList h]
  rfl

theorem splitEq_append (name v : String) (h : '=' ∉ name.toList) :
    splitEq (name ++ "=" ++ v) = some (name, v) := by
  have hl : (name ++ "=" ++ v).toList = name.toList ++ '=' :: v.toList := by
    rw [toList_append_toList, toList_append_toList, List.append_assoc]
    rfl
  unfold splitEq
  rw [hl, splitEqList_append name.toList v.toList h]
  rfl

theorem hasFlagPfx_marker (X : String) : hasFlagPfx ("--" ++ X) = true := by
  have hl : ("--" ++ X).toList = '-' :: '-' :: X.toList := by
    rw [toList_append_toList]
    rfl
  simp [hasFlagPfx, hl]

theorem stripFlagPfx_marker (X : String) : stripFlagPfx ("--" ++ X) = X := by
  have hl : ("--" ++ X).toList = '-' :: '-' :: X.toList := by
    rw [toList_append_toList]
    rfl
  simp [stripFlagPfx, hl, mk_toList]

theorem serializable_parseValue (v : String) (h : specialFloat v = none) :
    serializable (parseValue v) = true := by
  unfold parseValue
  cases hb : parseBool v with
  | some b => rfl
  | none =>
    cases ha : atoi v with
    | some n => rfl
    | none =>
      unfold parseFloat
      rw [h]
      cases hd : decParse v with
      | none => rfl
      | some q => rfl

theorem marshalOk_setKey (m : Overlay) (k : String) (v : JValue)
    (hm : marshalOk m = true) (hv : serializable v = true) :
    marshalOk (setKey m k v) = true := by
  induction m with
  | nil => simp [marshalOk, setKey, serializableFields, hv]
  | cons hd tl ih =>
    obtain ⟨k1, v1⟩ := hd
    have hm2 : (serializable v1 && marshalOk tl) = true := hm
    rcases Bool.and_eq_true _ _ ▸ hm2 with ⟨h1, h2⟩
    by_cases hk : k1 = k
    · rw [show setKey ((k1, v1) :: tl) k v = (k, v) :: tl from by simp [setKey, hk]]
      rw [show marshalOk ((k, v) :: tl) = (serializable v && marshalOk tl) from rfl]
      rw [hv, h2]
      rfl
    · rw [show setKey ((k1, v1) :: tl) k v = (k1, v1) :: setKey tl k v from by
        simp [setKey, hk]]
      rw [show marshalOk ((k1, v1) :: setKey tl k v) =
          (serializable v1 && marshalOk (setKey tl k v)) from rfl]
      rw [h1, ih h2]
      rfl

theorem marshalOk_applyEnvList (l : List String) (m : Overlay)
    (hm : marshalOk m = true) (hv : envValuesOk l = true) :
    marshalOk (applyEnvList l m) = true := by
  induction l generalizing m with
  | nil => simpa [applyEnvList] using hm
  | cons e tl ih =>
    have hv2 : (entryValueOk e && envValuesOk tl) = true := hv
    rcases Bool.and_eq_true _ _ ▸ hv2 with ⟨h1, h2⟩
    cases hsp : splitEq e with
    | none => simpa [applyEnvList, hsp] using ih m hm h2
    | some p =>
      obtain ⟨k, v⟩ := p
      simp only [entryValueOk, hsp] at h1
      have hser : serializable (parseValue v) = true :=
        serializable_parseValue v (Option.isNone_iff_eq_none.mp h1)
      simpa [applyEnvList, hsp] using
        ih (setKey m (goToLower k) (parseValue v))
          (marshalOk_setKey m (goToLower k) (parseValue v) hm hser) h2

theorem marshalOk_applyArgsList (l : List String) (m : Overlay)
    (hm : marshalOk m = true) (hv : argTokensOk l = true) :
    marshalOk (applyArgsList l m) = true := by
  induction l generalizing m with
  | nil => simpa [applyArgsList] using hm
  | cons a tl ih =>
    have hv2 : (argTokenOk a && argTokensOk tl) = true := hv
    rcases Bool.and_eq_true _ _ ▸ hv2 with ⟨h1, h2⟩
    by_cases hfa : hasFlagPfx a
    · cases tl with
      | nil =>
        simpa [applyArgsList, hfa] using
          marshalOk_setKey m (goToLower (stripFlagPfx a)) (.bool true) hm rfl
      | cons b bs =>
        by_cases hfb : hasFlagPfx b
        · simpa [applyArgsList, hfa, hfb] using
            ih (setKey m (goToLower (stripFlagPfx a)) (.bool true))
              (marshalOk_setKey m (goToLower (stripFlagPfx a)) (.bool true) hm rfl) h2
        · have hb1 : (specialFloat b).isNone = true := by
            have h22 : (argTokenOk b && argTokensOk bs) = true := h2
            rcases Bool.and_eq_true _ _ ▸ h22 with ⟨hb, hb2⟩
            have hb3 : (hasFlagPfx b || (specialFloat b).isNone) = true := hb
            rcases Bool.or_eq_true _ _ ▸ hb3 with hb4 | hb4
            · exact absurd hb4 hfb
            · exact hb4
          have hser : serializable (parseValue b) = true :=
            serializable_parseValue b (Option.isNone_iff_eq_none.mp hb1)
          simpa [applyArgsList, hfa, hfb] using
            ih (setKey m (goToLower (stripFlagPfx a)) (parseValue b))
              (marshalOk_setKey m (goToLower (stripFlagPfx a)) (parseValue b) hm hser) h2
    · simpa [applyArgsList, hfa] using ih m hm h2

theorem unmarshalToType_nil : unmarshalToType [] = .ok zeroConfig := by rfl

theorem unmarshalToType_dburl_str (v : String) :
    unmarshalToType [("databaseurl", JValue.str v)] = .ok ⟨v, 0, false, 0, ""⟩ := by rfl

/-- C1: with base file port 8080, environment file port 8090, environment
variable PORT=9000 and arguments dash-dash-port 3000, Load succeeds and the
projected port field is 3000; and in general a later write to an overlay key
replaces the earlier value in place. -/
theorem c1_priority_order :
    (∀ wd, Load ⟨some ["--port", "3000"], some ["PORT=9000"], some "dev", some "/cfg"⟩
        fsPriority wd = .ok ⟨"", 3000, false, 0, ""⟩) ∧
    (∀ m k v, lookupKey (setKey m k v) k = some v) :=
  ⟨fun _ => rfl, lookupKey_setKey⟩

/-- C2: parseValue is a pure function with the spec's sample values; the
float case carries the exact rational of the decimal text minus 45.6. -/
theorem c2_parseValue_samples :
    parseValue "true" = .bool true ∧
    parseValue "False" = .bool false ∧
    parseValue "0" = .bool false ∧
    parseValue "123" = .int 123 ∧
    parseValue "-45.6" = .float (.finite (-(456 / 10))) ∧
    parseValue "hello" = .str "hello" ∧
    parseValue "" = .str "" ∧
    parseValue "123abc" = .str "123abc" :=
  ⟨rfl, rfl, rfl, rfl, rfl, rfl, rfl, rfl⟩

/-- C3 counterexample: the lower-cased environment key databaseurl does
populate the schema field whose tag is the mixed-case databaseURL, so
projection matching is not case-sensitive exact comparison. -/
theorem c3_counterexample_mixed_case_populated :
    Load ⟨none, some ["DATABASEURL=postgres"], none, some "/cfg"⟩
      (fun _ => .absent) (.error "e") = .ok ⟨"postgres", 0, false, 0, ""⟩ := rfl

/-- C3 amended: the projector matches overlay keys to schema field tags up to
ASCII case, so a lower-cased environment-variable key populates a mixed-case
tagged field: for every value string that Value Inference keeps as a string,
the env entry DATABASEURL=value projects into the databaseURL field. -/
theorem c3_amended_case_insensitive (v : String) (hs : parseValue v = .str v)
    (wd : Except String String) :
    Load ⟨none, some ["DATABASEURL" ++ "=" ++ v], none, some "/cfg"⟩
      (fun _ => .absent) wd = .ok ⟨v, 0, false, 0, ""⟩ := by
  have hsp := splitEq_append "DATABASEURL" v (by decide)
  have h1 : applyEnvList ["DATABASEURL" ++ "=" ++ v] [] = [("databaseurl", JValue.str v)] := by
    unfold applyEnvList
    rw [hsp]
    show applyEnvList [] (setKey [] (goToLower "DATABASEURL") (parseValue v)) = _
    rw [hs]
    rfl
  show (match unmarshalToType (applyEnvList ["DATABASEURL" ++ "=" ++ v] []) with
        | .error e => Except.error ("failed to unmarshal config: " ++ e)
        | .ok r => Except.ok r) = .ok ⟨v, 0, false, 0, ""⟩
  rw [h1, unmarshalToType_dburl_str v]

/-- C3 amended witness at the concrete value postgres. -/
theorem c3_amended_case_insensitive_witness :
    parseValue "postgres" = .str "postgres" ∧
    Load ⟨none, some ["DATABASEURL" ++ "=" ++ "postgres"], none, some "/cfg"⟩
      (fun _ => .absent) (.error "e") = .ok ⟨"postgres", 0, false, 0, ""⟩ :=
  ⟨rfl, c3_amended_case_insensitive "postgres" rfl (.error "e")⟩

/-- C4 counterexample: the environment entry X=inf stores a positive-infinity
float (ParseFloat accepts the spelling inf), which json.Marshal cannot
serialize, so the projector's re-encoding step fails on a pipeline-built
overlay and the whole load errors. -/
theorem c4_counterexample_inf_not_serializable :
    marshalOk (applyEnvList ["X=inf"] []) = false ∧
    Load ⟨none, some ["X=inf"], none, some "/cfg"⟩ (fun _ => .absent) (.error "e") =
      .error "failed to unmarshal config: json: unsupported value" :=
  ⟨rfl, rfl⟩

/-- C4 amended: every value the string-sourced stages store is serializable
except the non-finite floats, which arise exactly from the inf, infinity and
nan spellings; as long as no environment value and no consumable argument
token is such a spelling, the marshal step of the projector succeeds on the
overlays the two stages build. -/
theorem c4_amended_marshal_succeeds :
    (∀ v, specialFloat v = none → serializable (parseValue v) = true) ∧
    (∀ vars m, marshalOk m = true → envValuesOk vars = true →
      marshalOk (applyEnvList vars m) = true) ∧
    (∀ args m, marshalOk m = true → argTokensOk args = true →
      marshalOk (applyArgsList args m) = true) :=
  ⟨serializable_parseValue,
   fun vars m hm hv => marshalOk_applyEnvList vars m hm hv,
   fun args m hm hv => marshalOk_applyArgsList args m hm hv⟩

/-- C4 amended witness at concrete inputs. -/
theorem c4_amended_marshal_succeeds_witness :
    serializable (parseValue "9000") = true ∧
    marshalOk (applyEnvList ["PORT=9000"] []) = true ∧
    marshalOk (applyArgsList ["--port", "3000"] []) = true :=
  ⟨c4_amended_marshal_succeeds.1 "9000" rfl,
   c4_amended_marshal_succeeds.2.1 ["PORT=9000"] [] rfl rfl,
   c4_amended_marshal_succeeds.2.2 ["--port", "3000"] [] rfl rfl⟩

/-- C5 counterexample: a file whose whole content is the JSON literal null
has bytes that are not a top-level object, yet loadConfigFile succeeds with
the overlay unchanged instead of returning an error. -/
theorem c5_counterexample_null_is_accepted :
    loadConfigFile (fun _ => .bytes (.wf .null)) "/d/config.json" [] = .ok [] := rfl

/-- C5 amended: a missing file is success with the overlay unchanged;
malformed bytes and every non-object top-level value other than null (array,
string, number, boolean) abort with an error; the literal null is the one
exception and unmarshals as a no-op. -/
theorem c5_amended_file_errors :
    (∀ fs p m, fs p = .absent → loadConfigFile fs p m = .ok m) ∧
    (∀ fs p m, fs p = .bytes .malformed → isErr (loadConfigFile fs p m) = true) ∧
    (∀ fs p m xs, fs p = .bytes (.wf (.arr xs)) → isErr (loadConfigFile fs p m) = true) ∧
    (∀ fs p m s, fs p = .bytes (.wf (.str s)) → isErr (loadConfigFile fs p m) = true) ∧
    (∀ fs p m f, fs p = .bytes (.wf (.float f)) → isErr (loadConfigFile fs p m) = true) ∧
    (∀ fs p m n, fs p = .bytes (.wf (.int n)) → isErr (loadConfigFile fs p m) = true) ∧
    (∀ fs p m b, fs p = .bytes (.wf (.bool b)) → isErr (loadConfigFile fs p m) = true) ∧
    (∀ fs p m, fs p = .bytes (.wf .null) → loadConfigFile fs p m = .ok m) := by
  refine ⟨?_, ?_, ?_, ?_, ?_, ?_, ?_, ?_⟩
  · intro fs p m h
    simp [loadConfigFile, h]
  · intro fs p m h
    simp [loadConfigFile, h, unmarshalObj, isErr]
  · intro fs p m xs h
    simp [loadConfigFile, h, unmarshalObj, isErr]
  · intro fs p m s h
    simp [loadConfigFile, h, unmarshalObj, isErr]
  · intro fs p m f h
    simp [loadConfigFile, h, unmarshalObj, isErr]
  · intro fs p m n h
    simp [loadConfigFile, h, unmarshalObj, isErr]
  · intro fs p m b h
    simp [loadConfigFile, h, unmarshalObj, isErr]
  · intro fs p m h
    simp [loadConfigFile, h, unmarshalObj, mergeFields]

/-- C5 amended witness at concrete file contents. -/
theorem c5_amended_file_errors_witness :
    loadConfigFile (fun _ => .absent) "/d/config.json" [] = .ok [] ∧
    isErr (loadConfigFile (fun _ => .bytes .malformed) "/d/config.json" []) = true ∧
    isErr (loadConfigFile (fun _ => .bytes (.wf (.arr []))) "/d/config.json" []) = true ∧
    isErr (loadConfigFile (fun _ => .bytes (.wf (.str "a"))) "/d/config.json" []) = true ∧
    isErr (loadConfigFile (fun _ => .bytes (.wf (.float (.finite 1)))) "/d/config.json" []) = true ∧
    isErr (loadConfigFile (fun _ => .bytes (.wf (.int 1))) "/d/config.json" []) = true ∧
    isErr (loadConfigFile (fun _ => .bytes (.wf (.bool true))) "/d/config.json" []) = true ∧
    loadConfigFile (fun _ => .bytes (.wf .null)) "/d/other.json" [("k", .bool true)] =
      .ok [("k", .bool true)] :=
  ⟨c5_amended_file_errors.1 _ _ _ rfl,
   c5_amended_file_errors.2.1 _ _ _ rfl,
   c5_amended_file_errors.2.2.1 _ _ _ [] rfl,
   c5_amended_file_errors.2.2.2.1 _ _ _ "a" rfl,
   c5_amended_file_errors.2.2.2.2.1 _ _ _ (.finite 1) rfl,
   c5_amended_file_errors.2.2.2.2.2.1 _ _ _ 1 rfl,
   c5_amended_file_errors.2.2.2.2.2.2.1 _ _ _ true rfl,
   c5_amended_file_errors.2.2.2.2.2.2.2 _ _ _ rfl⟩

/-- C6: in the argument stage, a flag token followed by a non-flag token
stores the lower-cased key with the inferred value of that token; a flag
token followed by another flag token or by the end of the list stores the
key with boolean true; a non-flag token at its own position never writes a
key. -/
theorem c6_args_stage :
    (∀ X Y rest m, hasFlagPfx Y = false →
      applyArgsList (("--" ++ X) :: Y :: rest) m =
        applyArgsList (Y :: rest) (setKey m (goToLower X) (parseValue Y))) ∧
    (∀ X Y rest m, hasFlagPfx Y = true →
      applyArgsList (("--" ++ X) :: Y :: rest) m =
        applyArgsList (Y :: rest) (setKey m (goToLower X) (.bool true))) ∧
    (∀ X m, applyArgsList [("--" ++ X)] m = setKey m (goToLower X) (.bool true)) ∧
    (∀ Y rest m, hasFlagPfx Y = false → applyArgsList (Y :: rest) m = applyArgsList rest m) := by
  refine ⟨?_, ?_, ?_, ?_⟩
  · intro X Y rest m h
    simp [applyArgsList, hasFlagPfx_marker, stripFlagPfx_marker, h]
  · intro X Y rest m h
    simp [applyArgsList, hasFlagPfx_marker, stripFlagPfx_marker, h]
  · intro X m
    simp [applyArgsList, hasFlagPfx_marker, stripFlagPfx_marker]
  · intro Y rest m h
    simp [applyArgsList, h]

/-- C6 witness at concrete tokens. -/
theorem c6_args_stage_witness :
    applyArgsList [("--" ++ "port"), "3000"] [] =
      applyArgsList ["3000"] (setKey [] (goToLower "port") (parseValue "3000")) ∧
    applyArgsList [("--" ++ "verbose"), "--x"] [] =
      applyArgsList ["--x"] (setKey [] (goToLower "verbose") (.bool true)) ∧
    applyArgsList [("--" ++ "debug")] [] = setKey [] (goToLower "debug") (.bool true) ∧
    applyArgsList ["plain"] [] = applyArgsList [] [] :=
  ⟨c6_args_stage.1 "port" "3000" [] [] rfl,
   c6_args_stage.2.1 "verbose" "--x" [] [] rfl,
   c6_args_stage.2.2.1 "debug" [],
   c6_args_stage.2.2.2 "plain" [] [] rfl⟩

/-- C7: in the environment-variable stage, an entry NAME=VALUE (NAME free of
the separator) stores the lower-cased name with the inferred value; an entry
with no separator is skipped entirely; the stage never returns an error; and
lower-casing preserves underscores and hyphens. -/
theorem c7_env_stage :
    (∀ name v rest m, '=' ∉ name.toList →
      applyEnvList ((name ++ "=" ++ v) :: rest) m =
        applyEnvList rest (setKey m (goToLower name) (parseValue v))) ∧
    (∀ e rest m, '=' ∉ e.toList → applyEnvList (e :: rest) m = applyEnvList rest m) ∧
    (∀ vars m, isErr (loadEnvVars vars m) = false) ∧
    goToLower "DATABASE_URL" = "database_url" ∧
    goToLower "DB-HOST" = "db-host" := by
  refine ⟨?_, ?_, ?_, rfl, rfl⟩
  · intro name v rest m h
    simp [applyEnvList, splitEq_append name v h]
  · intro e rest m h
    simp [applyEnvList, splitEq_of_no_sep e h]
  · intro vars m
    cases vars <;> rfl

/-- C7 witness at concrete entries. -/
theorem c7_env_stage_witness :
    applyEnvList [("PORT" ++ "=" ++ "9000")] [] =
      applyEnvList [] (setKey [] (goToLower "PORT") (parseValue "9000")) ∧
    applyEnvList ["INVALID_VAR"] [] = applyEnvList [] [] ∧
    isErr (loadEnvVars (some ["PORT=9000"]) []) = false :=
  ⟨c7_env_stage.1 "PORT" "9000" [] [] (by decide),
   c7_env_stage.2.1 "INVALID_VAR" [] [] (by decide),
   c7_env_stage.2.2.1 (some ["PORT=9000"]) []⟩

/-- C8: every stage only adds keys or replaces values: whenever a stage
succeeds, each key of the overlay before the stage is still a key of the
overlay after it. -/
theorem c8_keys_never_removed :
    (∀ fs p m m2, loadConfigFile fs p m = .ok m2 →
      ∀ k, k ∈ keysOf m → k ∈ keysOf m2) ∧
    (∀ vars m m2, loadEnvVars vars m = .ok m2 →
      ∀ k, k ∈ keysOf m → k ∈ keysOf m2) ∧
    (∀ args m m2, loadArgs args m = .ok m2 →
      ∀ k, k ∈ keysOf m → k ∈ keysOf m2) := by
  refine ⟨?_, ?_, ?_⟩
  · intro fs p m m2 h k hk
    cases hfs : fs p with
    | absent =>
      simp [loadConfigFile, hfs] at h
      exact h ▸ hk
    | readError => simp [loadConfigFile, hfs] at h
    | bytes t =>
      cases t with
      | malformed => simp [loadConfigFile, hfs, unmarshalObj] at h
      | wf val =>
        cases val with
        | obj fields =>
          simp [loadConfigFile, hfs, unmarshalObj] at h
          exact h ▸ mem_keysOf_mergeFields fields m k hk
        | null =>
          simp [loadConfigFile, hfs, unmarshalObj, mergeFields] at h
          exact h ▸ hk
        | bool b => simp [loadConfigFile, hfs, unmarshalObj] at h
        | int n => simp [loadConfigFile, hfs, unmarshalObj] at h
        | float f => simp [loadConfigFile, hfs, unmarshalObj] at h
        | str s => simp [loadConfigFile, hfs, unmarshalObj] at h
        | arr xs => simp [loadConfigFile, hfs, unmarshalObj] at h
  · intro vars m m2 h k hk
    cases vars with
    | none =>
      simp [loadEnvVars] at h
      exact h ▸ hk
    | some l =>
      simp [loadEnvVars] at h
      exact h ▸ mem_keysOf_applyEnvList l m k hk
  · intro args m m2 h k hk
    cases args with
    | none =>
      simp [loadArgs] at h
      exact h ▸ hk
    | some l =>
      simp [loadArgs] at h
      exact h ▸ mem_keysOf_applyArgsList l m k hk

/-- C8 witness at a concrete stage run. -/
theorem c8_keys_never_removed_witness :
    "port" ∈ keysOf (applyEnvList ["NAME=x"] [("port", JValue.int 1)]) :=
  c8_keys_never_removed.2.1 (some ["NAME=x"]) [("port", JValue.int 1)]
    (applyEnvList ["NAME=x"] [("port", JValue.int 1)]) rfl "port" (by simp [keysOf])

/-- C9: when every file is absent and no environment variables or arguments
are configured, Load succeeds with the zero-valued schema instance,
whatever the configured directory and environment name; and the directory
resolver returns a configured override verbatim, never checking existence. -/
theorem c9_zero_value_on_empty :
    (∀ dir env fs wd, (∀ p, fs p = FileContent.absent) →
      Load ⟨none, none, env, some dir⟩ fs wd = .ok zeroConfig) ∧
    (∀ a wd d, a.withConfigDirectory = some d → getConfigDirectory a wd = .ok d) := by
  constructor
  · intro dir env fs wd h
    cases env with
    | none =>
      simp [Load, getConfigDirectory, loadConfigFile, h, loadEnvVars, loadArgs,
        unmarshalToType_nil]
    | some e =>
      simp [Load, getConfigDirectory, loadConfigFile, h, loadEnvVars, loadArgs,
        unmarshalToType_nil]
  · intro a wd d h
    simp [getConfigDirectory, h]

/-- C9 witness at a concrete non-existent directory. -/
theorem c9_zero_value_on_empty_witness :
    Load ⟨none, none, some "dev", some "/nonexistent/path"⟩ (fun _ => .absent)
      (.error "e") = .ok zeroConfig ∧
    getConfigDirectory ⟨none, none, none, some "/nonexistent/path"⟩ (.error "e") =
      .ok "/nonexistent/path" :=
  ⟨c9_zero_value_on_empty.1 "/nonexistent/path" (some "dev") (fun _ => .absent)
      (.error "e") (fun _ => rfl),
   c9_zero_value_on_empty.2 ⟨none, none, none, some "/nonexistent/path"⟩ (.error "e")
      "/nonexistent/path" rfl⟩

/-- C10: a config file whose whole content is the JSON literal null is
accepted by loadConfigFile and leaves the overlay unchanged, unlike
top-level arrays, strings and numbers. -/
theorem c10_null_file_no_op (fs : FS) (p : String) (m : Overlay)
    (h : fs p = .bytes (.wf .null)) : loadConfigFile fs p m = .ok m := by
  simp [loadConfigFile, h, unmarshalObj, mergeFields]

/-- C10 witness at a concrete null file and non-empty overlay. -/
theorem c10_null_file_no_op_witness :
    loadConfigFile (fun _ => .bytes (.wf .null)) "/cfg/config.json"
      [("port", JValue.int 8080)] = .ok [("port", JValue.int 8080)] :=
  c10_null_file_no_op (fun _ => .bytes (.wf .null)) "/cfg/config.json"
    [("port", JValue.int 8080)] rfl
